import Mathlib

/-!
A shallow embedding of the concurrent fetch orchestrator of `cratesync`
(`src/main.rs`, function `download_crates` and its helpers), together with
proofs about the skip filter, the fetch/verify/commit protocol, the
forbidden ledger, the worker-pool counter accounting and the progress
reporter.

Modelling conventions:
* SHA-256 is abstracted as a parameter `hashHex : List Nat → String`
  standing for the lowercase hex encoding of the digest of a byte string
  (`base16ct::lower::encode_string(Sha256::digest(..))` in the source);
  every theorem is universally quantified over it.
* The filesystem is an association list from paths to byte contents plus a
  list of created directories.  `create_dir_all`, `File::open` with
  truncation, and `rename` are modelled directly.
* The `403` ledger file is a `String`; `write_all` of a line either appends
  the whole line or fails leaving the ledger unchanged (fallible I/O is
  modelled all-or-nothing, as an `Except`).
* Rust's `str::lines` (used to load the ledger into the `HashSet`) is
  modelled char by char by `linesAux` / `rustLines`.
-/

namespace Cratesync

/-- The `CrateData` record from src/main.rs: the per-version index record. -/
structure CrateData where
  cksum : String
  yanked : Bool
deriving DecidableEq, Repr

/-- The index, flattened: an ordered list of crate names with their ordered
version lists, as produced by iterating the two nested `BTreeMap`s. -/
abbrev Catalog := List (String × List (String × CrateData))

/-- A queue entry `(name, version, cksum)` as pushed in `download_crates`. -/
abbrev WorkItem := String × String × String

/-- ArtifactPath: `format!("crates/{name}/{name}-{version}.crate")` from src/main.rs. -/
def artifactPath (name version : String) : String :=
  "crates/" ++ name ++ "/" ++ name ++ "-" ++ version ++ ".crate"

/-- PartialPath: `format!("{file}.partial")` from src/main.rs. -/
def partialPath (name version : String) : String :=
  artifactPath name version ++ ".partial"

/-- Association-list lookup of a file's contents by path. -/
def findFile : List (String × List Nat) → String → Option (List Nat)
  | [], _ => none
  | (q, v) :: rest, p => if p = q then some v else findFile rest p

/-- The mirror directory: files (path ↦ bytes) and created directories. -/
structure Fs where
  files : List (String × List Nat)
  dirs : List String
deriving DecidableEq

def Fs.lookupFile (fs : Fs) (p : String) : Option (List Nat) :=
  findFile fs.files p

/-- Models `Path::new(&file).exists()` for a file path. -/
def Fs.pathExists (fs : Fs) (p : String) : Bool :=
  (fs.lookupFile p).isSome

/-- Models `create_dir_all`: creates the directory if absent, no effect on files. -/
def Fs.createDirAll (fs : Fs) (d : String) : Fs :=
  if fs.dirs.contains d then fs else { fs with dirs := d :: fs.dirs }

/-- Remove a path's entry (helper for truncating writes and rename). -/
def removeFile : List (String × List Nat) → String → List (String × List Nat)
  | [], _ => []
  | (q, v) :: rest, p =>
      if q = p then removeFile rest p else (q, v) :: removeFile rest p

/-- Models `File::options().create(true).truncate(true).open(p)` followed by writing
`v`: the path now holds exactly `v`. -/
def Fs.writeFile (fs : Fs) (p : String) (v : List Nat) : Fs :=
  { fs with files := (p, v) :: removeFile fs.files p }

/-- Models `std::fs::rename(src, dst)`: moves the contents of `src` to `dst`
(replacing `dst`).  Only invoked when `src` exists. -/
def Fs.renameFile (fs : Fs) (src dst : String) : Fs :=
  match fs.lookupFile src with
  | some v => { fs with files := (dst, v) :: removeFile (removeFile fs.files src) dst }
  | none => fs

/-- One step of Rust's `str::lines`: accumulate the current (reversed) line,
emit it at each newline; a final empty segment is not yielded. -/
def linesAux (cur : List Char) : List Char → List (List Char)
  | [] => if cur = [] then [] else [cur.reverse]
  | c :: rest =>
      if c = '\n' then cur.reverse :: linesAux [] rest
      else linesAux (c :: cur) rest

/-- Models `s.lines()` from Rust (our line contents never contain carriage returns,
so splitting only at newline characters is exact). -/
def rustLines (s : String) : List String :=
  (linesAux [] s.data).map fun l => String.mk l

/-! Section: Skip Filter / queue construction (src/main.rs lines 76–87) -/

/-- The inner loop over `versions`: push `(name, version, cksum)` iff the
`403` set does not contain the artifact path and no file exists there.
The two tests appear in the source's order. -/
def enqueueVersions (x403set : List String) (fs : Fs) (name : String) :
    List (String × CrateData) → List WorkItem
  | [] => []
  | (version, data) :: rest =>
      let file := artifactPath name version
      if !(x403set.contains file) && !(fs.pathExists file) then
        (name, version, data.cksum) :: enqueueVersions x403set fs name rest
      else
        enqueueVersions x403set fs name rest

/-- The outer loop over the index: `create_dir_all("crates/{name}")`, then
filter that crate's versions; threads the filesystem because the directory
creation mutates it. -/
def buildQueue (x403set : List String) : Catalog → Fs → List WorkItem × Fs
  | [], fs => ([], fs)
  | (name, versions) :: rest, fs =>
      let fs1 := fs.createDirAll ("crates/" ++ name)
      let q1 := enqueueVersions x403set fs1 name versions
      let p := buildQueue x403set rest fs1
      (q1 ++ p.1, p.2)

/-- The queue-selection part of `buildQueue` alone, evaluated against a fixed
filesystem (no directory creation). -/
def buildQueueFiles (x403set : List String) (fs : Fs) : Catalog → List WorkItem
  | [] => []
  | (name, versions) :: rest =>
      enqueueVersions x403set fs name versions ++ buildQueueFiles x403set fs rest

/-! Section: Worker: fetch / verify / commit (src/main.rs lines 115–153) -/

/-- The network's answer to `client.get(&url).send()`: either a transport
error or a response with a status code and a body. -/
inductive HttpResult where
  | transportError (msg : String)
  | response (status : Nat) (body : List Nat)
deriving DecidableEq

/-- The shared run state a worker mutates: the mirror filesystem, the `403`
ledger file's contents, the error buffer, and the two atomic counters. -/
structure RunState where
  fs : Fs
  ledger : String
  errors : List String
  bytes : Nat
  n_done : Nat
deriving DecidableEq

/-- The conceptual terminal classification of one item. -/
inductive Outcome where
  | success
  | forbidden
  | failed
deriving DecidableEq, Repr

/-- The message of the `ensure!` on checksum mismatch:
`"invalid checksum on {file:?}: should be {cksum}, but is {hash}"`
(`{file:?}` debug-quotes the path; our paths need no escaping). -/
def checksumErrMsg (file cksum hash : String) : String :=
  "invalid checksum on \"" ++ file ++ "\": should be " ++ cksum ++
    ", but is " ++ hash

/-- The error produced by `response.error_for_status()` for a client or
server error status (reqwest's exact message text is opaque; only its
production matters to the spec). -/
def statusErrMsg (status : Nat) : String :=
  "HTTP status error " ++ toString status

/-- The fallible closure body of one worker iteration (src/main.rs lines
123–148), threading the run state through its side effects.  `hashHex`
abstracts SHA-256 lowercase hex; `ledgerWrite` is the outcome of the
`write_all` on the shared `403` file handle (all-or-nothing).  Returns the
updated state and `Ok` (tagged with the conceptual outcome) or `Err` with
the error's message:
* transport error: fail;
* status 403: append `file ++ "\n"` to the ledger (or fail if the write
  fails) and return;
* other client/server error status (400–599): fail via `error_for_status`;
* otherwise stream the body to the partial file, add its length to `bytes`,
  hash the bytes stored there, and on match rename partial → final, on
  mismatch fail with `checksumErrMsg`. -/
def workOnItem (hashHex : List Nat → String) (ledgerWrite : Except String Unit)
    (name version cksum : String) (resp : HttpResult) (st : RunState) :
    RunState × Except String Outcome :=
  let file := artifactPath name version
  let pfile := partialPath name version
  match resp with
  | .transportError msg => (st, .error msg)
  | .response status body =>
      if status = 403 then
        match ledgerWrite with
        | .ok _ => ({ st with ledger := st.ledger ++ file ++ "\n" }, .ok .forbidden)
        | .error e => (st, .error e)
      else if 400 ≤ status ∧ status < 600 then
        (st, .error (statusErrMsg status))
      else
        let fs1 := st.fs.writeFile pfile body
        let st1 := { st with fs := fs1, bytes := st.bytes + body.length }
        let hash := hashHex ((fs1.lookupFile pfile).getD [])
        if hash = cksum then
          ({ st1 with fs := fs1.renameFile pfile file }, .ok .success)
        else
          (st1, .error (checksumErrMsg file cksum hash))

/-- One full worker iteration after a successful pop (src/main.rs lines
120–152): run the closure, push its error (if any) to the error buffer, and
unconditionally increment `n_done` by one. -/
def processItem (hashHex : List Nat → String) (ledgerWrite : Except String Unit)
    (item : WorkItem) (resp : HttpResult) (st : RunState) : RunState :=
  let r := workOnItem hashHex ledgerWrite item.1 item.2.1 item.2.2 resp st
  let st2 :=
    match r.2 with
    | .ok _ => r.1
    | .error e => { r.1 with errors := r.1.errors ++ [e] }
  { st2 with n_done := st2.n_done + 1 }

/-- The terminal classification of one item: `Err` is `Failed`, `Ok` is
`Success` or `Forbidden` according to which `return` the closure took. -/
def itemOutcome (hashHex : List Nat → String) (ledgerWrite : Except String Unit)
    (item : WorkItem) (resp : HttpResult) (st : RunState) : Outcome :=
  match (workOnItem hashHex ledgerWrite item.1 item.2.1 item.2.2 resp st).2 with
  | .ok o => o
  | .error _ => .failed

/-! Section: Worker pool as a transition system (src/main.rs lines 113–154)

A pop under the queue mutex is one atomic step; the rest of an iteration
(network, verify, commit, error push, `n_done` increment) is a second step,
`finish`, applied to the popped item with an arbitrary network answer and
ledger-write outcome.  Any number of workers corresponds to any number of
in-flight items. -/

/-- Queue of pending items, multiset of popped-but-unfinished items, and the
shared run state. -/
structure PoolState where
  queue : List WorkItem
  inflight : List WorkItem
  run : RunState

/-- The two atomic transitions of the worker pool. -/
inductive PoolStep : PoolState → PoolState → Prop
  | pop (x : WorkItem) (q fl : List WorkItem) (st : RunState) :
      PoolStep ⟨x :: q, fl, st⟩ ⟨q, x :: fl, st⟩
  | finish (x : WorkItem) (q fl : List WorkItem) (st : RunState)
      (hashHex : List Nat → String) (lw : Except String Unit)
      (resp : HttpResult) (hx : x ∈ fl) :
      PoolStep ⟨q, fl, st⟩ ⟨q, fl.erase x, processItem hashHex lw x resp st⟩

/-! Section: Progress reporter (src/main.rs lines 155–175) -/

/-- Models `start.elapsed().as_secs().max(1)`. -/
def reporterSecs (elapsed : Nat) : Nat := max elapsed 1

/-- The three numbers of the status line:
`n_done * 100 / n_todo`, `n_done / secs`, `bytes / secs / 1024`. -/
def statusLine (n_done n_todo bytes elapsed : Nat) : Nat × Nat × Nat :=
  (n_done * 100 / n_todo,
   n_done / reporterSecs elapsed,
   bytes / reporterSecs elapsed / 1024)

/-- Models `if n_done == n_todo { break }`: the reporter's exit test on the value
of `completed` it loaded this tick. -/
def reporterTickBreaks (n_done n_todo : Nat) : Bool := n_done == n_todo

/-- Modelled from the spec: the status-line numbers exactly as the spec's
words give them, with `elapsed_seconds` itself as the denominator
(`completed * 100 / total`, `completed / elapsed_seconds`,
`bytesTransferred / elapsed_seconds / 1024`); for comparison with
`statusLine`. -/
def specStatusLine (completed total bytes elapsed : Nat) : Nat × Nat × Nat :=
  (completed * 100 / total, completed / elapsed, bytes / elapsed / 1024)

/-! Section: Helper lemmas: filesystem -/

theorem findFile_removeFile (files : List (String × List Nat)) (p q : String) :
    findFile (removeFile files p) q = if q = p then none else findFile files q := by
  induction files with
  | nil => simp [removeFile, findFile]
  | cons a rest ih =>
      obtain ⟨r, v⟩ := a
      by_cases hrp : r = p <;> by_cases hqr : q = r <;> by_cases hqp : q = p <;>
        simp_all [removeFile, findFile]

theorem lookupFile_writeFile (fs : Fs) (p q : String) (v : List Nat) :
    (fs.writeFile p v).lookupFile q = if q = p then some v else fs.lookupFile q := by
  simp only [Fs.writeFile, Fs.lookupFile, findFile, findFile_removeFile]
  by_cases h : q = p <;> simp [h]

theorem lookupFile_renameFile (fs : Fs) (src dst q : String) (v : List Nat)
    (hsrc : fs.lookupFile src = some v) (hne : src ≠ dst) :
    (fs.renameFile src dst).lookupFile q =
      if q = dst then some v else if q = src then none else fs.lookupFile q := by
  unfold Fs.renameFile
  rw [hsrc]
  by_cases hqd : q = dst <;> by_cases hqs : q = src <;>
    simp_all [Fs.lookupFile, findFile, findFile_removeFile]

theorem pathExists_createDirAll (fs : Fs) (d p : String) :
    (fs.createDirAll d).pathExists p = fs.pathExists p := by
  unfold Fs.createDirAll
  split <;> rfl

theorem files_createDirAll (fs : Fs) (d : String) :
    (fs.createDirAll d).files = fs.files := by
  unfold Fs.createDirAll
  split <;> rfl

theorem artifactPath_ne_partialPath (n v : String) :
    artifactPath n v ≠ partialPath n v := by
  intro h
  have h1 := congrArg String.length h
  rw [partialPath, String.length_append] at h1
  have h2 : String.length (".partial") = 8 := rfl
  omega

/-! Section: Helper lemmas: Rust `str::lines` -/

theorem linesAux_append_newline (cs : List Char) (hcs : '\n' ∉ cs) :
    ∀ cur rest : List Char,
      linesAux cur (cs ++ '\n' :: rest) = (cur.reverse ++ cs) :: linesAux [] rest := by
  induction cs with
  | nil => intro cur rest; simp [linesAux]
  | cons c cs ih =>
      intro cur rest
      have hc : ¬ c = '\n' := fun h => hcs (h ▸ List.mem_cons_self c cs)
      have hcs' : '\n' ∉ cs := fun h => hcs (List.mem_cons_of_mem c h)
      simp [linesAux, hc, ih hcs']

theorem linesAux_split :
    ∀ led : List Char, led.getLast? = some '\n' →
      ∀ cur X : List Char,
        linesAux cur (led ++ X) = linesAux cur led ++ linesAux [] X := by
  intro led
  induction led with
  | nil => intro h; simp at h
  | cons c led ih =>
      intro hld cur X
      cases led with
      | nil =>
          simp at hld
          subst hld
          simp [linesAux]
      | cons d led' =>
          rw [List.getLast?_cons_cons] at hld
          have hstep : ∀ (cur2 t : List Char),
              linesAux cur2 (c :: t) =
                if c = '\n' then cur2.reverse :: linesAux [] t
                else linesAux (c :: cur2) t := fun cur2 t => rfl
          by_cases hc : c = '\n'
          · rw [List.cons_append, hstep, hstep, if_pos hc, if_pos hc, ih hld]
            simp
          · rw [List.cons_append, hstep, hstep, if_neg hc, if_neg hc, ih hld]

theorem rustLines_append_line (ledger file : String)
    (hled : ledger = "" ∨ ledger.data.getLast? = some '\n')
    (hfile : '\n' ∉ file.data) :
    rustLines (ledger ++ file ++ "\n") = rustLines ledger ++ [file] := by
  have hdata : (ledger ++ file ++ "\n").data = ledger.data ++ (file.data ++ '\n' :: []) := by
    simp [String.data_append]
  rcases hled with h | h
  · subst h
    simp [rustLines, hdata, linesAux_append_newline file.data hfile, linesAux]
  · simp [rustLines, hdata, linesAux_split ledger.data h,
      linesAux_append_newline file.data hfile, linesAux]

/-! Section: Helper lemmas: Skip Filter -/

theorem enqueueVersions_congr (x : List String) (fs fs' : Fs) (name : String)
    (h : ∀ p, fs'.pathExists p = fs.pathExists p) :
    ∀ vs, enqueueVersions x fs' name vs = enqueueVersions x fs name vs := by
  intro vs
  induction vs with
  | nil => rfl
  | cons a rest ih =>
      obtain ⟨ver, data⟩ := a
      simp only [enqueueVersions, h, ih]

theorem buildQueue_fst (x : List String) :
    ∀ (catalog : Catalog) (fs fs' : Fs),
      (∀ p, fs'.pathExists p = fs.pathExists p) →
      (buildQueue x catalog fs').1 = buildQueueFiles x fs catalog := by
  intro catalog
  induction catalog with
  | nil => intro fs fs' h; rfl
  | cons a rest ih =>
      intro fs fs' h
      obtain ⟨name, versions⟩ := a
      have h1 : ∀ p,
          (fs'.createDirAll ("crates/" ++ name)).pathExists p = fs.pathExists p := by
        intro p
        rw [pathExists_createDirAll]
        exact h p
      simp only [buildQueue, buildQueueFiles]
      rw [enqueueVersions_congr x fs _ name h1, ih fs _ h1]

theorem buildQueue_snd_files (x : List String) :
    ∀ (catalog : Catalog) (fs : Fs), (buildQueue x catalog fs).2.files = fs.files := by
  intro catalog
  induction catalog with
  | nil => intro fs; rfl
  | cons a rest ih =>
      intro fs
      obtain ⟨name, versions⟩ := a
      simp only [buildQueue]
      rw [ih, files_createDirAll]

theorem mem_enqueueVersions (x : List String) (fs : Fs) (name n v c : String) :
    ∀ vs : List (String × CrateData),
      (n, v, c) ∈ enqueueVersions x fs name vs ↔
        n = name ∧ ∃ data : CrateData, (v, data) ∈ vs ∧ data.cksum = c ∧
          x.contains (artifactPath name v) = false ∧
          fs.pathExists (artifactPath name v) = false := by
  intro vs
  induction vs with
  | nil => simp [enqueueVersions]
  | cons a rest ih =>
      obtain ⟨ver, data⟩ := a
      by_cases hcond :
          (!(x.contains (artifactPath name ver)) && !(fs.pathExists (artifactPath name ver))) = true
      · rw [enqueueVersions, if_pos hcond, List.mem_cons, ih]
        simp only [Bool.and_eq_true, Bool.not_eq_true'] at hcond
        constructor
        · rintro (heq | ⟨rfl, d, hd, hc, h1, h2⟩)
          · obtain ⟨rfl, rfl, rfl⟩ := Prod.mk.injEq .. ▸ heq
            exact ⟨rfl, data, List.mem_cons_self _ _, rfl, hcond.1, hcond.2⟩
          · exact ⟨rfl, d, List.mem_cons_of_mem _ hd, hc, h1, h2⟩
        · rintro ⟨rfl, d, hd, hc, h1, h2⟩
          rcases List.mem_cons.mp hd with heq | hd'
          · obtain ⟨rfl, rfl⟩ := Prod.mk.injEq .. ▸ heq
            exact Or.inl (by rw [hc])
          · exact Or.inr ⟨rfl, d, hd', hc, h1, h2⟩
      · rw [enqueueVersions, if_neg hcond, ih]
        simp only [Bool.and_eq_true, Bool.not_eq_true', not_and_or] at hcond
        constructor
        · rintro ⟨rfl, d, hd, hc, h1, h2⟩
          exact ⟨rfl, d, List.mem_cons_of_mem _ hd, hc, h1, h2⟩
        · rintro ⟨rfl, d, hd, hc, h1, h2⟩
          rcases List.mem_cons.mp hd with heq | hd'
          · obtain ⟨rfl, rfl⟩ := Prod.mk.injEq .. ▸ heq
            rcases hcond with hbad | hbad
            · rw [h1] at hbad; simp at hbad
            · rw [h2] at hbad; simp at hbad
          · exact ⟨rfl, d, hd', hc, h1, h2⟩

theorem mem_buildQueueFiles (x : List String) (fs : Fs) (n v c : String) :
    ∀ catalog : Catalog,
      (n, v, c) ∈ buildQueueFiles x fs catalog ↔
        ∃ versions data, (n, versions) ∈ catalog ∧ (v, data) ∈ versions ∧
          data.cksum = c ∧ x.contains (artifactPath n v) = false ∧
          fs.pathExists (artifactPath n v) = false := by
  intro catalog
  induction catalog with
  | nil => simp [buildQueueFiles]
  | cons a rest ih =>
      obtain ⟨name, versions⟩ := a
      simp only [buildQueueFiles, List.mem_append, ih, mem_enqueueVersions, List.mem_cons]
      constructor
      · rintro (⟨rfl, d, hd, hc, h1, h2⟩ | ⟨vs, d, hvs, hd, hc, h1, h2⟩)
        · exact ⟨versions, d, Or.inl rfl, hd, hc, h1, h2⟩
        · exact ⟨vs, d, Or.inr hvs, hd, hc, h1, h2⟩
      · rintro ⟨vs, d, (heq | hvs), hd, hc, h1, h2⟩
        · obtain ⟨rfl, rfl⟩ := Prod.mk.injEq .. ▸ heq
          exact Or.inl ⟨rfl, d, hd, hc, h1, h2⟩
        · exact Or.inr ⟨vs, d, hvs, hd, hc, h1, h2⟩

theorem mem_buildQueue (x : List String) (catalog : Catalog) (fs : Fs) (n v c : String) :
    (n, v, c) ∈ (buildQueue x catalog fs).1 ↔
      ∃ versions data, (n, versions) ∈ catalog ∧ (v, data) ∈ versions ∧
        data.cksum = c ∧ x.contains (artifactPath n v) = false ∧
        fs.pathExists (artifactPath n v) = false := by
  rw [buildQueue_fst x catalog fs fs fun _ => rfl, mem_buildQueueFiles]

/-! Section: Helper lemmas: worker branches -/

theorem workOnItem_transport (hh : List Nat → String) (lw : Except String Unit)
    (n v c msg : String) (st : RunState) :
    workOnItem hh lw n v c (.transportError msg) st = (st, .error msg) := rfl

theorem workOnItem_forbidden_ok (hh : List Nat → String) (n v c : String)
    (body : List Nat) (st : RunState) :
    workOnItem hh (.ok ()) n v c (.response 403 body) st =
      ({ st with ledger := st.ledger ++ artifactPath n v ++ "\n" }, .ok .forbidden) := by
  simp [workOnItem]

theorem workOnItem_forbidden_err (hh : List Nat → String) (e n v c : String)
    (body : List Nat) (st : RunState) :
    workOnItem hh (.error e) n v c (.response 403 body) st = (st, .error e) := by
  simp [workOnItem]

theorem workOnItem_status_err (hh : List Nat → String) (lw : Except String Unit)
    (n v c : String) (status : Nat) (body : List Nat) (st : RunState)
    (h403 : ¬ status = 403) (herr : 400 ≤ status ∧ status < 600) :
    workOnItem hh lw n v c (.response status body) st =
      (st, .error (statusErrMsg status)) := by
  simp [workOnItem, h403, herr]

theorem workOnItem_download (hh : List Nat → String) (lw : Except String Unit)
    (n v c : String) (status : Nat) (body : List Nat) (st : RunState)
    (h403 : ¬ status = 403) (herr : ¬ (400 ≤ status ∧ status < 600)) :
    workOnItem hh lw n v c (.response status body) st =
      (if hh body = c then
        ({ st with
            fs := (st.fs.writeFile (partialPath n v) body).renameFile
              (partialPath n v) (artifactPath n v)
            bytes := st.bytes + body.length }, .ok .success)
      else
        ({ st with
            fs := st.fs.writeFile (partialPath n v) body
            bytes := st.bytes + body.length },
         .error (checksumErrMsg (artifactPath n v) c (hh body)))) := by
  have hlook : ((st.fs.writeFile (partialPath n v) body).lookupFile
      (partialPath n v)).getD [] = body := by
    rw [lookupFile_writeFile, if_pos rfl]
    rfl
  simp only [workOnItem, h403, herr, if_false, ite_false, if_neg]
  rw [hlook]

theorem processItem_eq (hh : List Nat → String) (lw : Except String Unit)
    (it : WorkItem) (resp : HttpResult) (st : RunState) :
    processItem hh lw it resp st =
      (match workOnItem hh lw it.1 it.2.1 it.2.2 resp st with
       | (st1, .ok _) => { st1 with n_done := st1.n_done + 1 }
       | (st1, .error e) =>
           { st1 with errors := st1.errors ++ [e], n_done := st1.n_done + 1 }) := by
  unfold processItem
  rcases workOnItem hh lw it.1 it.2.1 it.2.2 resp st with ⟨st1, r⟩
  cases r <;> rfl

theorem workOnItem_fst_n_done (hh : List Nat → String) (lw : Except String Unit)
    (n v c : String) (resp : HttpResult) (st : RunState) :
    (workOnItem hh lw n v c resp st).1.n_done = st.n_done := by
  unfold workOnItem
  rcases resp with msg | ⟨status, body⟩
  · rfl
  · dsimp only
    split
    · cases lw <;> rfl
    · split
      · rfl
      · split <;> rfl

theorem n_done_processItem (hh : List Nat → String) (lw : Except String Unit)
    (it : WorkItem) (resp : HttpResult) (st : RunState) :
    (processItem hh lw it resp st).n_done = st.n_done + 1 := by
  have hw := workOnItem_fst_n_done hh lw it.1 it.2.1 it.2.2 resp st
  rw [processItem_eq]
  rcases hq : workOnItem hh lw it.1 it.2.1 it.2.2 resp st with ⟨st1, r⟩
  rw [hq] at hw
  cases r <;> simpa using hw

/-! Section: Helper lemmas: pool transition system -/

theorem poolStep_measure {s t : PoolState} (h : PoolStep s t) :
    t.run.n_done + t.inflight.length + t.queue.length =
      s.run.n_done + s.inflight.length + s.queue.length := by
  cases h with
  | pop x q fl st => simp; omega
  | finish x q fl st hh lw resp hx =>
      have h1 : (fl.erase x).length = fl.length - 1 := List.length_erase_of_mem hx
      have h2 : 0 < fl.length := List.length_pos.mpr (List.ne_nil_of_mem hx)
      simp only [n_done_processItem, h1]
      omega

theorem reaches_measure {s t : PoolState} (h : Relation.ReflTransGen PoolStep s t) :
    t.run.n_done + t.inflight.length + t.queue.length =
      s.run.n_done + s.inflight.length + s.queue.length := by
  induction h with
  | refl => rfl
  | tail _ h2 ih => rw [poolStep_measure h2, ih]

theorem pool_progress_aux :
    ∀ (m : Nat) (q fl : List WorkItem) (st : RunState),
      2 * q.length + fl.length ≤ m →
      ∃ t : PoolState, Relation.ReflTransGen PoolStep ⟨q, fl, st⟩ t ∧
        t.queue = [] ∧ t.inflight = [] := by
  intro m
  induction m with
  | zero =>
      intro q fl st h
      have hq : q = [] := List.length_eq_zero.mp (by omega)
      have hfl : fl = [] := List.length_eq_zero.mp (by omega)
      subst hq; subst hfl
      exact ⟨⟨[], [], st⟩, Relation.ReflTransGen.refl, rfl, rfl⟩
  | succ m ih =>
      intro q fl st h
      cases q with
      | cons x q' =>
          have step : PoolStep ⟨x :: q', fl, st⟩ ⟨q', x :: fl, st⟩ :=
            PoolStep.pop x q' fl st
          obtain ⟨t, ht, ht1, ht2⟩ := ih q' (x :: fl) st (by simp at h ⊢; omega)
          exact ⟨t, Relation.ReflTransGen.head step ht, ht1, ht2⟩
      | nil =>
          cases fl with
          | nil => exact ⟨⟨[], [], st⟩, Relation.ReflTransGen.refl, rfl, rfl⟩
          | cons y fl' =>
              have step : PoolStep ⟨[], y :: fl', st⟩
                  ⟨[], (y :: fl').erase y,
                    processItem (fun _ => "") (.ok ()) y
                      (HttpResult.transportError ("")) st⟩ :=
                PoolStep.finish y [] (y :: fl') st _ _ _ (List.mem_cons_self y fl')
              rw [List.erase_cons_head] at step
              obtain ⟨t, ht, ht1, ht2⟩ :=
                ih [] fl' (processItem (fun _ => "") (.ok ()) y
                  (HttpResult.transportError ("")) st) (by simp at h ⊢; omega)
              exact ⟨t, Relation.ReflTransGen.head step ht, ht1, ht2⟩

theorem pool_progress (s : PoolState) :
    ∃ t : PoolState, Relation.ReflTransGen PoolStep s t ∧
      t.queue = [] ∧ t.inflight = [] := by
  obtain ⟨q, fl, st⟩ := s
  exact pool_progress_aux (2 * q.length + fl.length) q fl st le_rfl

/-! Section: Claims -/

/-- C9: the Progress Reporter's throughput divisions are always well-defined:
the elapsed-seconds denominator `reporterSecs` is clamped to at least 1, and
it is exactly the denominator both throughput fields of the status line use,
so no division by zero occurs even on a tick within the first second. -/
theorem c9_reporter_no_div_by_zero (n_done n_todo bytes elapsed : Nat) :
    0 < reporterSecs elapsed ∧
      statusLine n_done n_todo bytes elapsed =
        (n_done * 100 / n_todo, n_done / reporterSecs elapsed,
         bytes / reporterSecs elapsed / 1024) :=
  ⟨lt_of_lt_of_le Nat.zero_lt_one (le_max_right elapsed 1), rfl⟩

/-- C8 counterexample: on a tick within the first second of the run
(`elapsed = 0`, `completed = 5`, `total = 10`) the printed status line is
not the spec's `completed / elapsed_seconds` formula: the code divides by
`max elapsed_seconds 1`. -/
theorem c8_counterexample : statusLine 5 10 0 0 ≠ specStatusLine 5 10 0 0 := by
  decide

/-- C8 (amended): on every tick the reporter prints percent complete
`completed * 100 / total` and throughput `completed / secs` items/s and
`bytes / secs / 1024` KiB/s with `secs = max elapsed_seconds 1`; hence the
spec's formulas hold verbatim on every tick with `elapsed_seconds ≥ 1`, and
the loop (and so the run) terminates exactly when `completed == total`. -/
theorem c8_status_line_amended (n_done n_todo bytes elapsed : Nat)
    (h : 1 ≤ elapsed) :
    statusLine n_done n_todo bytes elapsed = specStatusLine n_done n_todo bytes elapsed ∧
      (reporterTickBreaks n_done n_todo = true ↔ n_done = n_todo) := by
  constructor
  · have hsec : reporterSecs elapsed = elapsed := Nat.max_eq_left h
    simp [statusLine, specStatusLine, hsec]
  · simp [reporterTickBreaks]

/-- C8 witness: concrete tick one second in. -/
theorem c8_status_line_amended_witness :
    (statusLine 7 10 2048 1 = specStatusLine 7 10 2048 1 ∧
      (reporterTickBreaks 7 10 = true ↔ 7 = 10)) :=
  c8_status_line_amended 7 10 2048 1 (by decide)

/-- C7 counterexample: the queue-building pass is not free of filesystem
side effects — on a one-crate catalog over an empty mirror it creates the
directory `crates/foo` (the `create_dir_all` inside the loop). -/
theorem c7_counterexample :
    (buildQueue [] [("foo", [("1.0.0", ⟨"c1", false⟩)])] ⟨[], []⟩).2 ≠
      (⟨[], []⟩ : Fs) := by
  decide

/-- C7 (amended): the Skip Filter's selection is pure — the queue it builds
equals the one computed statelessly against the initial filesystem, so its
own directory creation never influences which items are enqueued — and the
pass creates or modifies no files; but it does create the `crates/<name>`
directories, so it is not entirely side-effect free.  (It runs once, before
any worker starts: workers are spawned only after `buildQueue` returns.) -/
theorem c7_skip_filter_amended (x403set : List String) (catalog : Catalog) (fs : Fs) :
    (buildQueue x403set catalog fs).1 = buildQueueFiles x403set fs catalog ∧
      (buildQueue x403set catalog fs).2.files = fs.files :=
  ⟨buildQueue_fst x403set catalog fs fs fun _ => rfl,
   buildQueue_snd_files x403set catalog fs⟩

/-- C3: for every catalog entry `(name, version, checksum)`, the Skip Filter
enqueues its work item iff no file exists at the artifact path
`crates/<name>/<name>-<version>.crate` and that path is not a line of the
ForbiddenSet loaded from the `403` ledger. -/
theorem c3_skip_filter_contract (ledger : String) (fs : Fs) (catalog : Catalog)
    (name version : String) (versions : List (String × CrateData)) (data : CrateData)
    (hcat : (name, versions) ∈ catalog) (hver : (version, data) ∈ versions) :
    (name, version, data.cksum) ∈ (buildQueue (rustLines ledger) catalog fs).1 ↔
      (fs.pathExists (artifactPath name version) = false ∧
        (rustLines ledger).contains (artifactPath name version) = false) := by
  rw [mem_buildQueue]
  constructor
  · rintro ⟨vs, d, hvs, hd, hc, h1, h2⟩
    exact ⟨h2, h1⟩
  · rintro ⟨h2, h1⟩
    exact ⟨versions, data, hcat, hver, rfl, h1, h2⟩

/-- C3 witness: a one-crate catalog over an empty mirror and an empty
ledger enqueues its item. -/
theorem c3_skip_filter_contract_witness :
    ("foo", "1.0.0", "c1") ∈
      (buildQueue (rustLines ("")) [("foo", [("1.0.0", ⟨"c1", false⟩)])] ⟨[], []⟩).1 :=
  (c3_skip_filter_contract ("") ⟨[], []⟩ [("foo", [("1.0.0", ⟨"c1", false⟩)])]
      "foo" "1.0.0" [("1.0.0", ⟨"c1", false⟩)] ⟨"c1", false⟩
      (List.mem_cons_self _ _) (List.mem_cons_self _ _)).mpr (by decide)

/-- C1: a file becomes visible at the final artifact path only after the
digest of the bytes stored at the partial path has been computed and found
equal to `expected_checksum`, and the commit is the single rename of the
partial path: if the final path held nothing before processing and holds
`cont` afterwards, then the response was a body whose bytes are exactly
`cont`, `hashHex cont = cksum`, and the partial file is gone (renamed). -/
theorem c1_verified_before_visible (hashHex : List Nat → String)
    (lw : Except String Unit) (name version cksum : String) (resp : HttpResult)
    (st : RunState) (cont : List Nat)
    (habs : st.fs.lookupFile (artifactPath name version) = none)
    (hvis : (processItem hashHex lw (name, version, cksum) resp st).fs.lookupFile
        (artifactPath name version) = some cont) :
    hashHex cont = cksum ∧
    (processItem hashHex lw (name, version, cksum) resp st).fs.lookupFile
        (partialPath name version) = none ∧
    ∃ status body, resp = .response status body ∧ cont = body := by
  rcases resp with msg | ⟨status, body⟩
  · simp only [processItem_eq, workOnItem_transport] at hvis
    rw [habs] at hvis
    exact Option.noConfusion hvis
  · by_cases h403 : status = 403
    · subst h403
      cases lw with
      | ok u =>
          cases u
          simp only [processItem_eq, workOnItem_forbidden_ok] at hvis
          rw [habs] at hvis
          exact Option.noConfusion hvis
      | error e =>
          simp only [processItem_eq, workOnItem_forbidden_err] at hvis
          rw [habs] at hvis
          exact Option.noConfusion hvis
    · by_cases herr : 400 ≤ status ∧ status < 600
      · simp only [processItem_eq,
          workOnItem_status_err hashHex lw name version cksum status body st h403 herr]
          at hvis
        rw [habs] at hvis
        exact Option.noConfusion hvis
      · have hdl := workOnItem_download hashHex lw name version cksum status body st h403 herr
        have hsrc : (st.fs.writeFile (partialPath name version) body).lookupFile
            (partialPath name version) = some body := by
          rw [lookupFile_writeFile, if_pos rfl]
        have hne : partialPath name version ≠ artifactPath name version :=
          fun h => artifactPath_ne_partialPath name version h.symm
        by_cases hmatch : hashHex body = cksum
        · rw [if_pos hmatch] at hdl
          simp only [processItem_eq, hdl] at hvis ⊢
          rw [lookupFile_renameFile _ _ _ _ _ hsrc hne, if_pos rfl] at hvis
          have hcb : body = cont := by injection hvis
          subst hcb
          refine ⟨hmatch, ?_, status, body, rfl, rfl⟩
          rw [lookupFile_renameFile _ _ _ _ _ hsrc hne, if_neg hne, if_pos rfl]
        · rw [if_neg hmatch] at hdl
          simp only [processItem_eq, hdl] at hvis
          rw [lookupFile_writeFile, if_neg (artifactPath_ne_partialPath name version),
            habs] at hvis
          exact Option.noConfusion hvis

/-- C1 witness: a 200 response whose body hashes to the expected checksum
is committed; the final path holds the body and the partial file is gone. -/
theorem c1_verified_before_visible_witness :
    (fun _ : List Nat => "ck") [1, 2] = "ck" ∧
    (processItem (fun _ => "ck") (.ok ()) ("foo", "1.0.0", "ck")
        (.response 200 [1, 2]) ⟨⟨[], []⟩, "", [], 0, 0⟩).fs.lookupFile
      (partialPath ("foo") ("1.0.0")) = none ∧
    ∃ status body, (HttpResult.response 200 [1, 2] : HttpResult) = .response status body ∧
      [1, 2] = body :=
  c1_verified_before_visible (fun _ => "ck") (.ok ()) "foo" "1.0.0" "ck"
    (.response 200 [1, 2]) ⟨⟨[], []⟩, "", [], 0, 0⟩ [1, 2] (by decide) (by decide)

/-- C4: on a checksum mismatch the worker pushes exactly one ErrorRecord —
the `ensure!` message naming both the expected and the actual digest — the
outcome is `Failed`, no file exists at the final artifact path afterwards
(it held nothing before), and the partial file is left in place holding the
downloaded body (not promoted). -/
theorem c4_checksum_mismatch (hashHex : List Nat → String) (lw : Except String Unit)
    (name version cksum : String) (status : Nat) (body : List Nat) (st : RunState)
    (h403 : ¬ status = 403) (herr : ¬ (400 ≤ status ∧ status < 600))
    (hmm : ¬ hashHex body = cksum)
    (habs : st.fs.lookupFile (artifactPath name version) = none) :
    (processItem hashHex lw (name, version, cksum) (.response status body) st).errors =
      st.errors ++ [checksumErrMsg (artifactPath name version) cksum (hashHex body)] ∧
    itemOutcome hashHex lw (name, version, cksum) (.response status body) st = .failed ∧
    (processItem hashHex lw (name, version, cksum) (.response status body) st).fs.lookupFile
      (artifactPath name version) = none ∧
    (processItem hashHex lw (name, version, cksum) (.response status body) st).fs.lookupFile
      (partialPath name version) = some body := by
  have hdl := workOnItem_download hashHex lw name version cksum status body st h403 herr
  rw [if_neg hmm] at hdl
  refine ⟨?_, ?_, ?_, ?_⟩
  · simp only [processItem_eq, hdl]
  · simp only [itemOutcome, hdl]
  · simp only [processItem_eq, hdl]
    rw [lookupFile_writeFile, if_neg (artifactPath_ne_partialPath name version), habs]
  · simp only [processItem_eq, hdl]
    rw [lookupFile_writeFile, if_pos rfl]

/-- C4 witness: body `[7]` hashes to `"bad"` but `"good"` was expected. -/
theorem c4_checksum_mismatch_witness :
    (processItem (fun _ => "bad") (.ok ()) ("foo", "1.0.0", "good")
        (.response 200 [7]) ⟨⟨[], []⟩, "", [], 0, 0⟩).errors =
      [] ++ [checksumErrMsg (artifactPath ("foo") ("1.0.0")) ("good") ("bad")] ∧
    itemOutcome (fun _ => "bad") (.ok ()) ("foo", "1.0.0", "good")
      (.response 200 [7]) ⟨⟨[], []⟩, "", [], 0, 0⟩ = .failed ∧
    (processItem (fun _ => "bad") (.ok ()) ("foo", "1.0.0", "good")
        (.response 200 [7]) ⟨⟨[], []⟩, "", [], 0, 0⟩).fs.lookupFile
      (artifactPath ("foo") ("1.0.0")) = none ∧
    (processItem (fun _ => "bad") (.ok ()) ("foo", "1.0.0", "good")
        (.response 200 [7]) ⟨⟨[], []⟩, "", [], 0, 0⟩).fs.lookupFile
      (partialPath ("foo") ("1.0.0")) = some [7] :=
  c4_checksum_mismatch (fun _ => "bad") (.ok ()) "foo" "1.0.0" "good" 200 [7]
    ⟨⟨[], []⟩, "", [], 0, 0⟩ (by decide) (by decide) (by decide) (by decide)

/-- C5: on a 403 response whose ledger write succeeds, the worker appends
the item's artifact path as one line to the `403` ledger, produces no
ErrorRecord, creates no crate or partial file, the outcome is `Forbidden`,
and a subsequent run that loads the new ledger skips the item: no work item
for this `(name, version)` is ever enqueued, whatever catalog and
filesystem that run sees. -/
theorem c5_forbidden_ledger (hashHex : List Nat → String)
    (name version cksum : String) (body : List Nat) (st : RunState)
    (hled : st.ledger = "" ∨ st.ledger.data.getLast? = some '\n')
    (hnl : '\n' ∉ (artifactPath name version).data) :
    (processItem hashHex (.ok ()) (name, version, cksum) (.response 403 body) st).ledger =
      st.ledger ++ artifactPath name version ++ "\n" ∧
    (processItem hashHex (.ok ()) (name, version, cksum) (.response 403 body) st).errors =
      st.errors ∧
    (processItem hashHex (.ok ()) (name, version, cksum) (.response 403 body) st).fs =
      st.fs ∧
    itemOutcome hashHex (.ok ()) (name, version, cksum) (.response 403 body) st =
      .forbidden ∧
    rustLines ((processItem hashHex (.ok ()) (name, version, cksum)
        (.response 403 body) st).ledger) =
      rustLines st.ledger ++ [artifactPath name version] ∧
    ∀ (catalog : Catalog) (fs : Fs) (c : String),
      (name, version, c) ∉
        (buildQueue (rustLines ((processItem hashHex (.ok ()) (name, version, cksum)
          (.response 403 body) st).ledger)) catalog fs).1 := by
  have hl : (processItem hashHex (.ok ()) (name, version, cksum)
      (.response 403 body) st).ledger = st.ledger ++ artifactPath name version ++ "\n" := by
    simp only [processItem_eq, workOnItem_forbidden_ok]
  have hlines : rustLines ((processItem hashHex (.ok ()) (name, version, cksum)
      (.response 403 body) st).ledger) = rustLines st.ledger ++ [artifactPath name version] := by
    rw [hl]
    exact rustLines_append_line st.ledger (artifactPath name version) hled hnl
  refine ⟨hl, ?_, ?_, ?_, hlines, ?_⟩
  · simp only [processItem_eq, workOnItem_forbidden_ok]
  · simp only [processItem_eq, workOnItem_forbidden_ok]
  · simp only [itemOutcome, workOnItem_forbidden_ok]
  · intro catalog fs c hmem
    rw [mem_buildQueue] at hmem
    obtain ⟨vs, d, _, _, _, h1, _⟩ := hmem
    have hin : artifactPath name version ∈
        rustLines ((processItem hashHex (.ok ()) (name, version, cksum)
          (.response 403 body) st).ledger) := by
      rw [hlines]
      exact List.mem_append_right _ (List.mem_cons_self _ _)
    have h2 : (rustLines ((processItem hashHex (.ok ()) (name, version, cksum)
        (.response 403 body) st).ledger)).contains (artifactPath name version) = true :=
      List.elem_eq_true_of_mem hin
    rw [h1] at h2
    exact Bool.noConfusion h2

/-- C5 witness: a 403 for `bar 2.0.0` over an empty ledger appends the line
`crates/bar/bar-2.0.0.crate` and the item is skipped afterwards. -/
theorem c5_forbidden_ledger_witness :
    (processItem (fun _ => "h") (.ok ()) ("bar", "2.0.0", "c")
        (.response 403 []) ⟨⟨[], []⟩, "", [], 0, 0⟩).ledger =
      "" ++ artifactPath ("bar") ("2.0.0") ++ "\n" ∧
    (processItem (fun _ => "h") (.ok ()) ("bar", "2.0.0", "c")
        (.response 403 []) ⟨⟨[], []⟩, "", [], 0, 0⟩).errors = [] ∧
    (processItem (fun _ => "h") (.ok ()) ("bar", "2.0.0", "c")
        (.response 403 []) ⟨⟨[], []⟩, "", [], 0, 0⟩).fs = ⟨[], []⟩ ∧
    itemOutcome (fun _ => "h") (.ok ()) ("bar", "2.0.0", "c")
      (.response 403 []) ⟨⟨[], []⟩, "", [], 0, 0⟩ = .forbidden ∧
    rustLines ((processItem (fun _ => "h") (.ok ()) ("bar", "2.0.0", "c")
        (.response 403 []) ⟨⟨[], []⟩, "", [], 0, 0⟩).ledger) =
      rustLines ("") ++ [artifactPath ("bar") ("2.0.0")] ∧
    ∀ (catalog : Catalog) (fs : Fs) (c : String),
      ("bar", "2.0.0", c) ∉
        (buildQueue (rustLines ((processItem (fun _ => "h") (.ok ()) ("bar", "2.0.0", "c")
          (.response 403 []) ⟨⟨[], []⟩, "", [], 0, 0⟩).ledger)) catalog fs).1 :=
  c5_forbidden_ledger (fun _ => "h") "bar" "2.0.0" "c" []
    ⟨⟨[], []⟩, "", [], 0, 0⟩ (Or.inl rfl) (by decide)

/-- C10: if appending the 403 line to the ledger fails with an I/O error,
the item's terminal outcome is `Failed`, not `Forbidden`: the error is
recorded, the ledger gains no entry, `completed` is still incremented
exactly once, the filesystem is untouched, and — the ledger being unchanged
— the item is enqueued again by the next run's Skip Filter (its catalog
entry still selects it while it is absent from disk and from the ledger). -/
theorem c10_ledger_write_failure (hashHex : List Nat → String)
    (name version cksum emsg : String) (body : List Nat) (st : RunState)
    (catalog : Catalog) (versions : List (String × CrateData)) (data : CrateData)
    (fs : Fs)
    (hcat : (name, versions) ∈ catalog) (hver : (version, data) ∈ versions)
    (hnotled : (rustLines st.ledger).contains (artifactPath name version) = false)
    (hnotfs : fs.pathExists (artifactPath name version) = false) :
    (processItem hashHex (.error emsg) (name, version, cksum)
        (.response 403 body) st).errors = st.errors ++ [emsg] ∧
    (processItem hashHex (.error emsg) (name, version, cksum)
        (.response 403 body) st).ledger = st.ledger ∧
    (processItem hashHex (.error emsg) (name, version, cksum)
        (.response 403 body) st).n_done = st.n_done + 1 ∧
    itemOutcome hashHex (.error emsg) (name, version, cksum)
      (.response 403 body) st = .failed ∧
    (processItem hashHex (.error emsg) (name, version, cksum)
        (.response 403 body) st).fs = st.fs ∧
    (name, version, data.cksum) ∈ (buildQueue (rustLines st.ledger) catalog fs).1 := by
  refine ⟨?_, ?_, ?_, ?_, ?_, ?_⟩
  · simp only [processItem_eq, workOnItem_forbidden_err]
  · simp only [processItem_eq, workOnItem_forbidden_err]
  · exact n_done_processItem hashHex (.error emsg) (name, version, cksum)
      (.response 403 body) st
  · simp only [itemOutcome, workOnItem_forbidden_err]
  · simp only [processItem_eq, workOnItem_forbidden_err]
  · exact (mem_buildQueue (rustLines st.ledger) catalog fs name version data.cksum).mpr
      ⟨versions, data, hcat, hver, rfl, hnotled, hnotfs⟩

/-- C10 witness: a failed ledger write for `bar 2.0.0` over an empty state;
the next run still enqueues the item. -/
theorem c10_ledger_write_failure_witness :
    (processItem (fun _ => "h") (.error ("disk full")) ("bar", "2.0.0", "c")
        (.response 403 []) ⟨⟨[], []⟩, "", [], 0, 0⟩).errors = [] ++ ["disk full"] ∧
    (processItem (fun _ => "h") (.error ("disk full")) ("bar", "2.0.0", "c")
        (.response 403 []) ⟨⟨[], []⟩, "", [], 0, 0⟩).ledger = "" ∧
    (processItem (fun _ => "h") (.error ("disk full")) ("bar", "2.0.0", "c")
        (.response 403 []) ⟨⟨[], []⟩, "", [], 0, 0⟩).n_done = 0 + 1 ∧
    itemOutcome (fun _ => "h") (.error ("disk full")) ("bar", "2.0.0", "c")
      (.response 403 []) ⟨⟨[], []⟩, "", [], 0, 0⟩ = .failed ∧
    (processItem (fun _ => "h") (.error ("disk full")) ("bar", "2.0.0", "c")
        (.response 403 []) ⟨⟨[], []⟩, "", [], 0, 0⟩).fs = ⟨[], []⟩ ∧
    ("bar", "2.0.0", (⟨"c", false⟩ : CrateData).cksum) ∈
      (buildQueue (rustLines ("")) [("bar", [("2.0.0", ⟨"c", false⟩)])] ⟨[], []⟩).1 :=
  c10_ledger_write_failure (fun _ => "h") "bar" "2.0.0" "c" "disk full" []
    ⟨⟨[], []⟩, "", [], 0, 0⟩ [("bar", [("2.0.0", ⟨"c", false⟩)])]
    [("2.0.0", ⟨"c", false⟩)] ⟨"c", false⟩ ⟨[], []⟩
    (List.mem_cons_self _ _) (List.mem_cons_self _ _) (by decide) (by decide)

/-- C2: for a run started with N enqueued items, in every reachable
interleaving of any number of workers the completed counter plus in-flight
items plus pending items equals N (each popped item is finished exactly
once, and `processItem` increments `n_done` by exactly one on every branch);
hence any state with an empty queue and no in-flight item — the run's end —
has `completed = N`, and such a terminal state is always reachable. -/
theorem c2_counter_accounting (items : List WorkItem) (fs0 : Fs) (led0 : String)
    (s : PoolState)
    (h : Relation.ReflTransGen PoolStep ⟨items, [], ⟨fs0, led0, [], 0, 0⟩⟩ s) :
    s.run.n_done + s.inflight.length + s.queue.length = items.length ∧
    (s.queue = [] → s.inflight = [] → s.run.n_done = items.length) ∧
    (∀ (hh : List Nat → String) (lw : Except String Unit) (it : WorkItem)
        (resp : HttpResult) (st : RunState),
      (processItem hh lw it resp st).n_done = st.n_done + 1) ∧
    ∃ t : PoolState, Relation.ReflTransGen PoolStep s t ∧ t.queue = [] ∧
      t.inflight = [] := by
  have hm := reaches_measure h
  simp only [List.length_nil] at hm
  have hm' : s.run.n_done + s.inflight.length + s.queue.length = items.length := by
    omega
  refine ⟨hm', ?_, fun hh lw it resp st => n_done_processItem hh lw it resp st,
    pool_progress s⟩
  intro hq hfl
  rw [hq, hfl] at hm'
  simpa using hm'

/-- C2 witness: the initial state of a one-item run satisfies the counter
invariant and can reach a terminal state. -/
theorem c2_counter_accounting_witness :
    (⟨[("a", "1", "c")], [], ⟨⟨[], []⟩, "", [], 0, 0⟩⟩ : PoolState).run.n_done +
      (⟨[("a", "1", "c")], [], ⟨⟨[], []⟩, "", [], 0, 0⟩⟩ : PoolState).inflight.length +
      (⟨[("a", "1", "c")], [], ⟨⟨[], []⟩, "", [], 0, 0⟩⟩ : PoolState).queue.length =
      ([("a", "1", "c")] : List WorkItem).length ∧
    ((⟨[("a", "1", "c")], [], ⟨⟨[], []⟩, "", [], 0, 0⟩⟩ : PoolState).queue = [] →
      (⟨[("a", "1", "c")], [], ⟨⟨[], []⟩, "", [], 0, 0⟩⟩ : PoolState).inflight = [] →
      (⟨[("a", "1", "c")], [], ⟨⟨[], []⟩, "", [], 0, 0⟩⟩ : PoolState).run.n_done =
        ([("a", "1", "c")] : List WorkItem).length) ∧
    (∀ (hh : List Nat → String) (lw : Except String Unit) (it : WorkItem)
        (resp : HttpResult) (st : RunState),
      (processItem hh lw it resp st).n_done = st.n_done + 1) ∧
    ∃ t : PoolState, Relation.ReflTransGen PoolStep
      ⟨[("a", "1", "c")], [], ⟨⟨[], []⟩, "", [], 0, 0⟩⟩ t ∧ t.queue = [] ∧
      t.inflight = [] :=
  c2_counter_accounting [("a", "1", "c")] ⟨[], []⟩ ""
    ⟨[("a", "1", "c")], [], ⟨⟨[], []⟩, "", [], 0, 0⟩⟩ Relation.ReflTransGen.refl

end Cratesync
